import Mathlib

/-!
Shallow embedding of the repository synchronization engine in `src/main.py`
(class `EPELDownloader`), together with proofs of the behavioural properties
stated in the specification.

Modelling conventions:
* Python strings are Lean `String`s; file contents are byte lists
  (`Content := List Nat`).
* The local filesystem is an association list from path to content
  (newest write first); `os.path.exists`/`open(...).read()` become
  `fs_lookup`, `open(path, 'wb').write(...)` becomes `fs_write`.
* `hashlib.sha256(...).hexdigest()` is abstracted as a parameter
  `hash : Content → String`; the remote server is a parameter
  `remote : String → Content` (URL to the bytes served there).
* `urllib` raising on a URL is modelled by a predicate
  `fetchOk : String → Bool`; an exception aborts the enclosing Python
  loop, which the step functions reflect by returning the failing
  location and processing nothing further.
-/

namespace OfflineSync

/-- File contents: a byte string. -/
abbrev Content := List Nat

/-- The local filesystem: an association list from path to content, newest
write first. -/
abbrev Fs := List (String × Content)

/-- Existence check plus read: the most recent content written to a path,
`none` when the path does not exist. -/
def fs_lookup : Fs → String → Option Content
  | [], _ => none
  | (q, c) :: rest, p => if q = p then some c else fs_lookup rest p

/-- `open(path, 'wb').write(content)`: whole-file overwrite. -/
def fs_write (fs : Fs) (p : String) (c : Content) : Fs := (p, c) :: fs

/-- Python `dict.get(k)` on a string-to-string dict represented as an
association list with unique keys. -/
def dict_get : List (String × String) → String → Option String
  | [], _ => none
  | (k, v) :: rest, q => if k = q then some v else dict_get rest q

/-- Python `str.replace(old, new)` on character lists: every non-overlapping
occurrence is replaced, scanning left to right.  An empty pattern matches at
every position (Python: `"ab".replace("", "x") = "xaxbx"`).  The `fuel`
argument only makes the recursion structural (each step consumes at least
one character, so any `fuel ≥ l.length` computes the scan in full). -/
def pyReplaceChars (pat rep : List Char) : Nat → List Char → List Char
  | _, [] => if pat.isEmpty then rep else []
  | 0, _ :: _ => []
  | fuel + 1, c :: rest =>
    match pat with
    | [] => rep ++ c :: pyReplaceChars [] rep fuel rest
    | p :: ps =>
      if (p :: ps).isPrefixOf (c :: rest) then
        rep ++ pyReplaceChars (p :: ps) rep fuel (List.drop ps.length rest)
      else c :: pyReplaceChars (p :: ps) rep fuel rest

/-- Python `str.replace(old, new)`. -/
def pyReplace (s old new : String) : String :=
  String.mk (pyReplaceChars old.data new.data s.data.length s.data)

/-- Python `str.startswith(pre)`. -/
def pyStartsWith (s pre : String) : Bool := pre.data.isPrefixOf s.data

/-- Python `str.endswith(suf)`. -/
def pyEndsWith (s suf : String) : Bool := suf.data.isSuffixOf s.data

/-- `os.path.join(a, b)` for POSIX paths, two arguments, as the source uses
it: a `b` starting with `/` discards `a`; otherwise the parts are joined
with a `/` unless `a` is empty or already ends in one. -/
def os_path_join (a b : String) : String :=
  if pyStartsWith b "/" then b
  else if a == "" || pyEndsWith a "/" then a ++ b
  else a ++ "/" ++ b

/-- `EPELDownloader.get_local_path` (src/main.py:205-207):
`os.path.join(self.local_dir, file_url.replace(self.base_url, ''))`. -/
def get_local_path (base_url local_dir file_url : String) : String :=
  os_path_join local_dir (pyReplace file_url base_url "")

/-- `EPELDownloader.file_needs_update` (src/main.py:209-225).  Returns
`true` when the file must be (re)downloaded: the local path does not exist,
or a truthy remote checksum is recorded for `pkg_location` and the hash of
the local bytes differs from it.  In every other case it returns `false`. -/
def file_needs_update (hash : Content → String) (fs : Fs)
    (package_checksums : List (String × String))
    (base_url local_dir file_url pkg_location : String) : Bool :=
  match fs_lookup fs (get_local_path base_url local_dir file_url) with
  | none => true
  | some data =>
    let local_checksum := hash data
    match dict_get package_checksums pkg_location with
    | none => false
    | some remote_checksum =>
      !(remote_checksum == "") && !(local_checksum == remote_checksum)

/-- The per-record decision at src/main.py:116:
`if self.args.force or self.file_needs_update(pkg_url, pkg_location)`. -/
def should_download (hash : Content → String) (force : Bool) (fs : Fs)
    (package_checksums : List (String × String))
    (base_url local_dir pkg_location : String) : Bool :=
  force || file_needs_update hash fs package_checksums base_url local_dir
    (os_path_join base_url pkg_location) pkg_location

/-- `EPELDownloader.download_package_group` (src/main.py:110-120), with
`download_file` (src/main.py:98-108) inlined as a write of the remote bytes
to the mapped local path.  The Python loop has no exception handler, so the
first failing fetch aborts the remaining records of the group.  Returns the
final filesystem, the records actually downloaded (in order), and the
location whose fetch raised, if any. -/
def download_package_group (hash : Content → String) (remote : String → Content)
    (package_checksums : List (String × String)) (base_url local_dir : String)
    (force : Bool) (fetchOk : String → Bool) :
    Fs → List String → Fs × List String × Option String
  | fs, [] => (fs, [], none)
  | fs, pkg_location :: rest =>
    if force || file_needs_update hash fs package_checksums base_url local_dir
        (os_path_join base_url pkg_location) pkg_location then
      if fetchOk (os_path_join base_url pkg_location) then
        let fs1 := fs_write fs
          (get_local_path base_url local_dir (os_path_join base_url pkg_location))
          (remote (os_path_join base_url pkg_location))
        let r := download_package_group hash remote package_checksums base_url
          local_dir force fetchOk fs1 rest
        (r.1, pkg_location :: r.2.1, r.2.2)
      else (fs, [], some pkg_location)
    else
      download_package_group hash remote package_checksums base_url local_dir
        force fetchOk fs rest

/-- Claim C5: for a record whose remote checksum is known (a truthy dict
entry) and whose mapped local file exists, a SHA-256 mismatch between the
local bytes and the remote checksum marks the record for download.  The
statement quantifies over arbitrary local contents, so it holds
irrespective of any file-size agreement: no size enters the decision. -/
theorem checksum_mismatch_triggers_download
    (hash : Content → String) (fs : Fs) (cks : List (String × String))
    (base_url local_dir file_url pkg_location : String)
    (data : Content) (rc : String)
    (hloc : fs_lookup fs (get_local_path base_url local_dir file_url) = some data)
    (hck : dict_get cks pkg_location = some rc)
    (hne : rc ≠ "")
    (hdiff : hash data ≠ rc) :
    file_needs_update hash fs cks base_url local_dir file_url pkg_location = true := by
  unfold file_needs_update
  rw [hloc, hck]
  simp only [Bool.and_eq_true, Bool.not_eq_true']
  exact ⟨by simpa using hne, by simpa using hdiff⟩

/-- Witness for `checksum_mismatch_triggers_download` at a concrete input. -/
theorem checksum_mismatch_triggers_download_witness :
    file_needs_update (fun _ => "aa") [("m/p/x.rpm", [0])] [("p/x.rpm", "bb")]
      "http://r/" "m" "http://r/p/x.rpm" "p/x.rpm" = true :=
  checksum_mismatch_triggers_download (fun _ => "aa") [("m/p/x.rpm", [0])]
    [("p/x.rpm", "bb")] "http://r/" "m" "http://r/p/x.rpm" "p/x.rpm" [0] "bb"
    (by decide) (by decide) (by decide) (by decide)

/-- Claim C6: a record whose mapped local path does not exist is marked for
download: `file_needs_update` returns `true`, and the call-site decision
`force or file_needs_update ...` is `true` for either value of the force
flag and for any checksum dictionary. -/
theorem missing_local_triggers_download
    (hash : Content → String) (fs : Fs) (cks : List (String × String))
    (base_url local_dir pkg_location : String)
    (hmiss : fs_lookup fs
      (get_local_path base_url local_dir (os_path_join base_url pkg_location)) = none) :
    file_needs_update hash fs cks base_url local_dir
        (os_path_join base_url pkg_location) pkg_location = true ∧
      ∀ force : Bool,
        should_download hash force fs cks base_url local_dir pkg_location = true := by
  have h1 : file_needs_update hash fs cks base_url local_dir
      (os_path_join base_url pkg_location) pkg_location = true := by
    unfold file_needs_update
    rw [hmiss]
  refine ⟨h1, fun force => ?_⟩
  unfold should_download
  rw [h1]
  simp

/-- Witness for `missing_local_triggers_download` at a concrete input. -/
theorem missing_local_triggers_download_witness :
    file_needs_update (fun _ => "aa") [] [("p/x.rpm", "bb")] "http://r/" "m"
        (os_path_join "http://r/" "p/x.rpm") "p/x.rpm" = true ∧
      ∀ force : Bool,
        should_download (fun _ => "aa") force [] [("p/x.rpm", "bb")]
          "http://r/" "m" "p/x.rpm" = true :=
  missing_local_triggers_download (fun _ => "aa") [] [("p/x.rpm", "bb")]
    "http://r/" "m" "p/x.rpm" (by decide)

/-- Claim C7: with `force = true` every record of a group is downloaded
(provided its fetch succeeds), whatever the filesystem, checksum dictionary
and hash say: the `force or ...` disjunction at src/main.py:116 short-circuits
past the per-file up-to-date check. -/
theorem force_downloads_every_record
    (hash : Content → String) (remote : String → Content)
    (cks : List (String × String)) (base_url local_dir : String)
    (fs : Fs) (group : List String) :
    (download_package_group hash remote cks base_url local_dir true
      (fun _ => true) fs group).2 = (group, none) := by
  induction group generalizing fs with
  | nil => rfl
  | cons loc rest ih =>
    simp only [download_package_group, Bool.true_or, if_true]
    rw [ih]

/-- Claim C1 counterexample: `file_needs_update` performs no size comparison
when no remote checksum is known.  Two local states holding files of sizes
1 and 2 at the mapped path both yield `false` with an empty checksum
dictionary, so whatever the remote content-length is, at least one of the
two states disagrees with it in size and is still not re-downloaded —
refuting the claimed size-mismatch fallback (spec §4.4 step 4). -/
theorem no_size_fallback_cex :
    file_needs_update (fun _ => "aa") [("m/p/x.rpm", [0])] []
        "http://r/" "m" "http://r/p/x.rpm" "p/x.rpm" = false ∧
      file_needs_update (fun _ => "aa") [("m/p/x.rpm", [0, 0])] []
        "http://r/" "m" "http://r/p/x.rpm" "p/x.rpm" = false ∧
      ([0] : Content).length ≠ ([0, 0] : Content).length := by
  decide

/-- Claim C1 (amended): when no remote checksum is known for a record and
the mapped local file exists, `file_needs_update` returns `false` — the
record is treated as up to date whatever its local size; the source has no
size-based fallback. -/
theorem no_checksum_existing_file_not_redownloaded
    (hash : Content → String) (fs : Fs) (cks : List (String × String))
    (base_url local_dir file_url pkg_location : String) (data : Content)
    (hloc : fs_lookup fs (get_local_path base_url local_dir file_url) = some data)
    (hck : dict_get cks pkg_location = none) :
    file_needs_update hash fs cks base_url local_dir file_url pkg_location = false := by
  unfold file_needs_update
  rw [hloc, hck]

/-- Witness for `no_checksum_existing_file_not_redownloaded` at a concrete
input. -/
theorem no_checksum_existing_file_not_redownloaded_witness :
    file_needs_update (fun _ => "aa") [("m/p/x.rpm", [0])] []
      "http://r/" "m" "http://r/p/x.rpm" "p/x.rpm" = false :=
  no_checksum_existing_file_not_redownloaded (fun _ => "aa")
    [("m/p/x.rpm", [0])] [] "http://r/" "m" "http://r/p/x.rpm" "p/x.rpm" [0]
    (by decide) (by decide)

/-- Substring occurrence on character lists (Python `old in s`): used to
state when `str.replace` can touch more than the leading occurrence. -/
def occursInChars (pat : List Char) : List Char → Bool
  | [] => pat.isEmpty
  | c :: rest => pat.isPrefixOf (c :: rest) || occursInChars pat rest

theorem occursInChars_nil_pat (l : List Char) : occursInChars [] l = true := by
  cases l with
  | nil => rfl
  | cons c rest => simp [occursInChars, List.isPrefixOf]

theorem pyReplaceChars_of_not_occurs (pat rep : List Char) :
    ∀ (l : List Char) (fuel : Nat), l.length ≤ fuel →
      occursInChars pat l = false → pyReplaceChars pat rep fuel l = l := by
  intro l
  induction l with
  | nil =>
    intro fuel _ hocc
    have hne : pat.isEmpty = false := by simpa [occursInChars] using hocc
    cases fuel <;> simp [pyReplaceChars, hne]
  | cons c rest ih =>
    intro fuel hlen hocc
    have h2 : pat.isPrefixOf (c :: rest) = false ∧ occursInChars pat rest = false := by
      simpa [occursInChars] using hocc
    cases fuel with
    | zero => simp at hlen
    | succ f =>
      cases pat with
      | nil => simp [List.isPrefixOf] at h2
      | cons p ps =>
        simp only [pyReplaceChars, h2.1, Bool.false_eq_true, if_false]
        rw [ih f (by simp at hlen; omega) h2.2]

theorem isPrefixOf_self_append : ∀ (a b : List Char), a.isPrefixOf (a ++ b) = true := by
  intro a
  induction a with
  | nil => intro b; simp [List.isPrefixOf]
  | cons x xs ih => intro b; simp [List.isPrefixOf, ih]

theorem isPrefixOf_cons_append (p : Char) (ps b : List Char) :
    (p :: ps).isPrefixOf (p :: (ps ++ b)) = true := by
  simp [List.isPrefixOf, isPrefixOf_self_append]

theorem drop_length_append (a : List Char) : ∀ b, List.drop a.length (a ++ b) = b := by
  induction a with
  | nil => intro b; rfl
  | cons x xs ih =>
    intro b
    simp [List.length_cons, List.drop_succ_cons, ih]

theorem pyReplaceChars_strip_unique (p : Char) (ps rest : List Char) (fuel : Nat)
    (hfuel : (p :: ps).length + rest.length ≤ fuel)
    (hocc : occursInChars (p :: ps) rest = false) :
    pyReplaceChars (p :: ps) [] fuel ((p :: ps) ++ rest) = rest := by
  cases fuel with
  | zero => simp at hfuel
  | succ f =>
    have hpre := isPrefixOf_cons_append p ps rest
    have hdrop := drop_length_append ps rest
    simp [pyReplaceChars, hpre, hdrop]
    exact pyReplaceChars_of_not_occurs _ _ rest f (by simp at hfuel; omega) hocc

/-- Claim C9 counterexample: `get_local_path` uses Python `str.replace`,
which removes every occurrence of `base_url` in the URL, not only the
leading prefix.  For `base_url = "http://r/"` and the URL
`"http://r/" ++ "a/http://r/b"`, the code maps to `"m/a/b"`, not to
`local_dir` joined with the prefix-stripped tail `"a/http://r/b"`. -/
theorem get_local_path_not_prefix_only_cex :
    get_local_path "http://r/" "m" ("http://r/" ++ "a/http://r/b") = "m/a/b" ∧
      "m/a/b" ≠ os_path_join "m" "a/http://r/b" := by
  constructor
  · decide
  · decide

/-- Claim C9 (amended): `get_local_path` equals `local_dir` joined with the
URL stripped of its leading `base_url` prefix only when `base_url` does not
occur again in the tail; `str.replace` removes all occurrences, so a URL
whose tail contains `base_url` again maps elsewhere
(`get_local_path_not_prefix_only_cex`).  Under the no-reoccurrence
hypothesis the mapping is exactly the prefix strip plus join. -/
theorem get_local_path_strips_prefix_when_unique
    (base_url local_dir tail : String)
    (hocc : occursInChars base_url.data tail.data = false) :
    get_local_path base_url local_dir (base_url ++ tail) =
      os_path_join local_dir tail := by
  have hbase : base_url.data ≠ [] := by
    intro h
    rw [h, occursInChars_nil_pat] at hocc
    simp at hocc
  unfold get_local_path pyReplace
  have hdata : (base_url ++ tail).data = base_url.data ++ tail.data :=
    String.data_append base_url tail
  rw [hdata]
  cases hb : base_url.data with
  | nil => exact absurd hb hbase
  | cons p ps =>
    rw [hb] at hocc
    have hstr : ("" : String).data = [] := rfl
    rw [hstr]
    rw [pyReplaceChars_strip_unique p ps tail.data
      ((p :: ps) ++ tail.data).length
      (by simp only [List.length_append, List.length_cons]; omega) hocc]

/-- Witness for `get_local_path_strips_prefix_when_unique` at a concrete
input. -/
theorem get_local_path_strips_prefix_when_unique_witness :
    get_local_path "http://r/" "m" ("http://r/" ++ "p/x.rpm") =
      os_path_join "m" "p/x.rpm" :=
  get_local_path_strips_prefix_when_unique "http://r/" "m" "p/x.rpm" (by decide)

/-- Python `str.split(sep)` with a one-character separator, on character
lists: `"".split('/') = ['']`, `"a//b".split('/') = ['a', '', 'b']`. -/
def pySplitChar (sep : Char) : List Char → List (List Char)
  | [] => [[]]
  | x :: xs =>
    if x = sep then [] :: pySplitChar sep xs
    else
      match pySplitChar sep xs with
      | [] => [[x]]
      | g :: gs => (x :: g) :: gs

/-- The partition key of src/main.py:163: `pkg_location.split('/')[1]`.
`none` models the `IndexError` raised when the location holds no `/`. -/
def partition_key (pkg_location : String) : Option String :=
  Option.map String.mk (pySplitChar '/' pkg_location.data)[1]?

/-- One insertion into the Python dict-of-lists `grouped_packages`
(src/main.py:163-166): append to the existing key's list, else add a new
key at the end (dicts preserve insertion order). -/
def add_to_group : List (String × List String) → String → String →
    List (String × List String)
  | [], k, loc => [(k, [loc])]
  | (k', v) :: rest, k, loc =>
    if k' = k then (k', v ++ [loc]) :: rest
    else (k', v) :: add_to_group rest k loc

/-- The grouping loop of src/main.py:156-166, restricted to building
`grouped_packages`: each location is appended to the group named by its
partition key; a location without a `/` raises `IndexError`, modelled as
`.error` carrying the offending location, aborting the loop. -/
def group_packages_aux (acc : List (String × List String)) :
    List String → Except String (List (String × List String))
  | [] => Except.ok acc
  | loc :: rest =>
    match partition_key loc with
    | none => Except.error loc
    | some k => group_packages_aux (add_to_group acc k loc) rest

/-- `grouped_packages` as built by src/main.py:156-166 from the package
locations of the primary index, starting from the empty dict. -/
def group_packages (locs : List String) :
    Except String (List (String × List String)) :=
  group_packages_aux [] locs

theorem pySplitChar_length_pos (sep : Char) :
    ∀ l : List Char, 0 < (pySplitChar sep l).length := by
  intro l
  induction l with
  | nil => simp [pySplitChar]
  | cons x xs ih =>
    by_cases hx : x = sep
    · simp [pySplitChar, hx]
    · cases hks : pySplitChar sep xs with
      | nil => simp [pySplitChar, hx, hks]
      | cons g gs => simp [pySplitChar, hx, hks]

theorem pySplitChar_length_ge_two (sep : Char) :
    ∀ l : List Char, sep ∈ l → 2 ≤ (pySplitChar sep l).length := by
  intro l
  induction l with
  | nil => intro h; simp at h
  | cons x xs ih =>
    intro hmem
    by_cases hx : x = sep
    · have hpos := pySplitChar_length_pos sep xs
      simp [pySplitChar, hx]
      omega
    · have hxs : sep ∈ xs := by
        rcases List.mem_cons.mp hmem with h | h
        · exact absurd h.symm hx
        · exact h
      have h2 := ih hxs
      cases hks : pySplitChar sep xs with
      | nil => rw [hks] at h2; simp at h2
      | cons g gs =>
        rw [hks] at h2
        simp only [pySplitChar, hx, if_false, hks]
        simp at h2 ⊢
        omega

theorem partition_key_some_of_slash (l : String) (h : '/' ∈ l.data) :
    ∃ k, partition_key l = some k := by
  have h2 := pySplitChar_length_ge_two '/' l.data h
  unfold partition_key
  cases hks : pySplitChar '/' l.data with
  | nil => rw [hks] at h2; simp at h2
  | cons a rest =>
    cases rest with
    | nil => rw [hks] at h2; simp at h2
    | cons b rest2 => exact ⟨String.mk b, by simp⟩

theorem group_packages_aux_ok (locs : List String) :
    ∀ acc, (∀ l ∈ locs, '/' ∈ l.data) →
      ∃ g, group_packages_aux acc locs = Except.ok g := by
  induction locs with
  | nil => intro acc _; exact ⟨acc, rfl⟩
  | cons loc rest ih =>
    intro acc hall
    obtain ⟨k, hk⟩ := partition_key_some_of_slash loc (hall loc (by simp))
    simp only [group_packages_aux, hk]
    exact ih (add_to_group acc k loc) (fun l hl => hall l (by simp [hl]))

/-- Claim C10: partition-key derivation indexes the second `/`-separated
component of a location (`split('/')[1]`), so grouping is total when every
location holds at least one `/`, and a location without one makes the
grouping step fault (Python `IndexError`) instead of producing a plan. -/
theorem grouping_total_under_slash_and_faults_without :
    (∀ locs : List String, (∀ l ∈ locs, '/' ∈ l.data) →
        ∃ g, group_packages locs = Except.ok g) ∧
      group_packages ["noslash.rpm"] = Except.error "noslash.rpm" := by
  constructor
  · intro locs h
    exact group_packages_aux_ok locs [] h
  · rfl

/-- Witness for `grouping_total_under_slash_and_faults_without`: the
totality half applied to a concrete slash-containing location list. -/
theorem grouping_total_under_slash_witness :
    ∃ g, group_packages ["pkg/a/x.rpm"] = Except.ok g :=
  grouping_total_under_slash_and_faults_without.1 ["pkg/a/x.rpm"] (by decide)

/-- A record occurs in some partition of a plan. -/
def mem_plan (x : String) (g : List (String × List String)) : Prop :=
  ∃ kv, kv ∈ g ∧ x ∈ kv.2

theorem mem_plan_cons (x : String) (a : String × List String)
    (g : List (String × List String)) :
    mem_plan x (a :: g) ↔ x ∈ a.2 ∨ mem_plan x g := by
  constructor
  · rintro ⟨kv, hkv, hx⟩
    rcases List.mem_cons.mp hkv with h | h
    · subst h; exact Or.inl hx
    · exact Or.inr ⟨kv, h, hx⟩
  · rintro (h | ⟨kv, hkv, hx⟩)
    · exact ⟨a, List.mem_cons_self a g, h⟩
    · exact ⟨kv, List.mem_cons_of_mem _ hkv, hx⟩

theorem mem_plan_add (acc : List (String × List String)) (k loc x : String) :
    mem_plan x (add_to_group acc k loc) ↔ mem_plan x acc ∨ x = loc := by
  induction acc with
  | nil =>
    simp [add_to_group, mem_plan]
  | cons a rest ih =>
    obtain ⟨k', v⟩ := a
    by_cases hk : k' = k
    · simp only [add_to_group, hk, if_true, mem_plan_cons]
      simp [List.mem_append]
      tauto
    · simp only [add_to_group, hk, if_false, mem_plan_cons, ih]
      tauto

theorem mem_keys_add (acc : List (String × List String)) (k loc x : String) :
    x ∈ (add_to_group acc k loc).map Prod.fst ↔
      x ∈ acc.map Prod.fst ∨ x = k := by
  induction acc with
  | nil => simp [add_to_group]
  | cons a rest ih =>
    obtain ⟨k', v⟩ := a
    by_cases hk : k' = k
    · subst hk
      simp only [add_to_group, if_true]
      simp
      tauto
    · simp only [add_to_group, hk, if_false, List.map_cons, List.mem_cons, ih]
      tauto

theorem add_to_group_nodup (acc : List (String × List String)) (k loc : String)
    (h : (acc.map Prod.fst).Nodup) :
    ((add_to_group acc k loc).map Prod.fst).Nodup := by
  induction acc with
  | nil => simp [add_to_group]
  | cons a rest ih =>
    obtain ⟨k', v⟩ := a
    simp only [List.map_cons, List.nodup_cons] at h
    by_cases hk : k' = k
    · simp only [add_to_group, hk, if_true, List.map_cons, List.nodup_cons]
      exact ⟨by simpa [hk] using h.1, h.2⟩
    · simp only [add_to_group, hk, if_false, List.map_cons, List.nodup_cons]
      refine ⟨?_, ih h.2⟩
      rw [mem_keys_add]
      rintro (hmem | hmem)
      · exact h.1 hmem
      · exact hk hmem

theorem add_to_group_keyed (acc : List (String × List String)) (k loc : String)
    (hacc : ∀ kv ∈ acc, ∀ l ∈ kv.2, partition_key l = some kv.1)
    (hloc : partition_key loc = some k) :
    ∀ kv ∈ add_to_group acc k loc, ∀ l ∈ kv.2, partition_key l = some kv.1 := by
  induction acc with
  | nil =>
    intro kv hkv l hl
    simp [add_to_group] at hkv
    subst hkv
    simp at hl
    subst hl
    exact hloc
  | cons a rest ih =>
    obtain ⟨k', v⟩ := a
    by_cases hk : k' = k
    · subst hk
      intro kv hkv l hl
      simp only [add_to_group, if_true] at hkv
      rcases List.mem_cons.mp hkv with h | h
      · subst h
        simp only at hl
        rcases List.mem_append.mp hl with h2 | h2
        · exact hacc (k', v) (by simp) l h2
        · simp at h2
          subst h2
          exact hloc
      · exact hacc kv (by simp [h]) l hl
    · intro kv hkv l hl
      simp only [add_to_group, hk, if_false] at hkv
      rcases List.mem_cons.mp hkv with h | h
      · subst h
        exact hacc (k', v) (by simp) l hl
      · exact ih (fun kv2 hkv2 => hacc kv2 (by simp [hkv2])) kv h l hl

theorem group_packages_aux_spec (locs : List String) :
    ∀ (acc : List (String × List String)) (g : List (String × List String)),
      group_packages_aux acc locs = Except.ok g →
      (acc.map Prod.fst).Nodup →
      (∀ kv ∈ acc, ∀ l ∈ kv.2, partition_key l = some kv.1) →
      ((g.map Prod.fst).Nodup ∧
        (∀ kv ∈ g, ∀ l ∈ kv.2, partition_key l = some kv.1) ∧
        ∀ x, mem_plan x g ↔ mem_plan x acc ∨ x ∈ locs) := by
  induction locs with
  | nil =>
    intro acc g hok hnd hkeyed
    have hg : acc = g := by
      simpa [group_packages_aux] using hok
    subst hg
    exact ⟨hnd, hkeyed, fun x => by simp⟩
  | cons loc rest ih =>
    intro acc g hok hnd hkeyed
    cases hk : partition_key loc with
    | none => rw [group_packages_aux, hk] at hok; cases hok
    | some k =>
      rw [group_packages_aux, hk] at hok
      obtain ⟨h1, h2, h3⟩ := ih (add_to_group acc k loc) g hok
        (add_to_group_nodup acc k loc hnd)
        (add_to_group_keyed acc k loc hkeyed hk)
      refine ⟨h1, h2, fun x => ?_⟩
      rw [h3 x, mem_plan_add]
      simp [List.mem_cons]
      tauto

theorem eq_of_nodup_keys (g : List (String × List String))
    (h : (g.map Prod.fst).Nodup) :
    ∀ kv1 ∈ g, ∀ kv2 ∈ g, kv1.1 = kv2.1 → kv1 = kv2 := by
  induction g with
  | nil => intro kv1 h1; simp at h1
  | cons a rest ih =>
    simp only [List.map_cons, List.nodup_cons] at h
    intro kv1 h1 kv2 h2 heq
    rcases List.mem_cons.mp h1 with hc1 | hc1 <;>
      rcases List.mem_cons.mp h2 with hc2 | hc2
    · rw [hc1, hc2]
    · subst hc1
      exact absurd (heq ▸ List.mem_map_of_mem Prod.fst hc2) h.1
    · subst hc2
      exact absurd (heq ▸ List.mem_map_of_mem Prod.fst hc1) h.1
    · exact ih h.2 kv1 hc1 kv2 hc2 heq

/-- Claim C8: a download plan built by `group_packages` covers exactly the
input records (a record is in some partition iff it is an input), and no
record occurrence lies in two distinct partitions: two partitions sharing a
record are the same entry of the plan. -/
theorem download_plan_partitions_cover_and_disjoint
    (locs : List String) (g : List (String × List String))
    (hok : group_packages locs = Except.ok g) :
    (∀ x, mem_plan x g ↔ x ∈ locs) ∧
      ∀ kv1 ∈ g, ∀ kv2 ∈ g, ∀ x, x ∈ kv1.2 → x ∈ kv2.2 → kv1 = kv2 := by
  obtain ⟨hnd, hkeyed, hmem⟩ := group_packages_aux_spec locs [] g hok
    (by simp) (by simp)
  refine ⟨fun x => ?_, fun kv1 h1 kv2 h2 x hx1 hx2 => ?_⟩
  · rw [hmem x]
    simp [mem_plan]
  · have e1 := hkeyed kv1 h1 x hx1
    have e2 := hkeyed kv2 h2 x hx2
    have : kv1.1 = kv2.1 := by
      rw [e1] at e2
      exact (Option.some.injEq _ _).mp e2
    exact eq_of_nodup_keys g hnd kv1 h1 kv2 h2 this

/-- Witness for `download_plan_partitions_cover_and_disjoint` on a concrete
three-record index with two partition keys. -/
theorem download_plan_partitions_witness :
    (∀ x, mem_plan x
        [("a", ["pkg/a/x.rpm", "pkg/a/y.rpm"]), ("b", ["pkg/b/z.rpm"])] ↔
        x ∈ ["pkg/a/x.rpm", "pkg/a/y.rpm", "pkg/b/z.rpm"]) ∧
      ∀ kv1 ∈ [("a", ["pkg/a/x.rpm", "pkg/a/y.rpm"]), ("b", ["pkg/b/z.rpm"])],
        ∀ kv2 ∈ [("a", ["pkg/a/x.rpm", "pkg/a/y.rpm"]), ("b", ["pkg/b/z.rpm"])],
          ∀ x, x ∈ kv1.2 → x ∈ kv2.2 → kv1 = kv2 :=
  download_plan_partitions_cover_and_disjoint
    ["pkg/a/x.rpm", "pkg/a/y.rpm", "pkg/b/z.rpm"]
    [("a", ["pkg/a/x.rpm", "pkg/a/y.rpm"]), ("b", ["pkg/b/z.rpm"])] (by rfl)

/-- One `data` element of the repomd manifest: its `type` attribute and the
`href` of its `location` child when that child exists.  (The source reads
`location.get('href')`; the claims below hinge only on the presence of a
primary `data` element, so the child and its attribute are collapsed into
one `Option`.) -/
structure DataEntry where
  dtype : String
  location : Option String
deriving DecidableEq

/-- The `ElementTree.find` call at src/main.py:136:
`root.find("repo:data[@type='primary']/repo:location", ...)` returns the
first `location` child of a `data` element whose `type` equals `primary`,
in document order, or `None` when there is none. -/
def find_primary_location (rd : List DataEntry) : Option String :=
  (rd.filter (fun d => d.dtype == "primary")).findSome? (fun d => d.location)

/-- The errors a sync run can abort with.  The source defines no structured
error taxonomy; the first three constructors name the Python exceptions
that can actually escape (`AttributeError` from `None.get('href')`,
`IndexError` from `split('/')[1]`, a `urllib` error while fetching), and
`malformedMetadataError` names the structured error the specification
postulates, so statements can compare the two. -/
inductive SyncError where
  | attributeError : SyncError
  | indexError : SyncError
  | networkError : SyncError
  | malformedMetadataError : SyncError
deriving DecidableEq

/-- Line 136 of src/main.py, `find(...).get('href')`: when no primary
descriptor exists, `find` returns `None` and the attribute access raises
`AttributeError`. -/
def get_primary_href (rd : List DataEntry) : Except SyncError String :=
  match find_primary_location rd with
  | none => Except.error SyncError.attributeError
  | some href => Except.ok href

/-- The worker-pool execution of the plan at src/main.py:169-176.  Each
submitted group runs to completion or to its own first fetch failure in
its own worker; a failure in one group does not stop the other groups —
it resurfaces only at `future.result()` after the groups ran.  The pool
is modelled by running the submitted groups in submission order (the
interleaving is immaterial to the properties proved below); the error
component keeps the first group failure, as `as_completed` re-raises
one of them. -/
def run_groups (hash : Content → String) (remote : String → Content)
    (package_checksums : List (String × String)) (base_url local_dir : String)
    (force : Bool) (fetchOk : String → Bool) (fs : Fs)
    (groups : List (String × List String)) : Fs × List String × Option String :=
  groups.foldl
    (fun st kv =>
      let r := download_package_group hash remote package_checksums base_url
        local_dir force fetchOk st.1 kv.2
      (r.1, st.2.1 ++ r.2.1, st.2.2.orElse (fun _ => r.2.2)))
    (fs, [], none)

/-- `enumerate_and_download_packages` (src/main.py:122-185) reduced to its
control flow around package downloads: the primary descriptor lookup of
line 136 runs before any package is enumerated or fetched, and if it
raises, the run aborts with no package downloaded; otherwise the records
are grouped (lines 156-166 — an `IndexError` there likewise aborts with
nothing downloaded) and the groups are handed to the worker pool.
Auxiliary metadata fetches (repomd.xml itself, the other `data` hrefs)
are not package downloads and are not tracked.  `package_checksums`
stands for the dict built at lines 158-162. -/
def enumerate_and_download_packages (hash : Content → String)
    (remote : String → Content) (package_checksums : List (String × String))
    (base_url local_dir : String) (force : Bool) (fetchOk : String → Bool)
    (fs : Fs) (rd : List DataEntry) (pkgs : List String) :
    Fs × List String × Option SyncError :=
  match get_primary_href rd with
  | Except.error e => (fs, [], some e)
  | Except.ok _ =>
    match group_packages pkgs with
    | Except.error _ => (fs, [], some SyncError.indexError)
    | Except.ok groups =>
      let r := run_groups hash remote package_checksums base_url local_dir
        force fetchOk fs groups
      (r.1, r.2.1, r.2.2.map (fun _ => SyncError.networkError))

/-- Claim C2 counterexample: on a manifest whose only descriptor is
`filelists`, the run does abort with nothing downloaded, but the error is
the untyped `AttributeError` from `None.get('href')`, not a
`MalformedMetadataError` — no such structured error exists in the code. -/
theorem missing_primary_error_cex :
    enumerate_and_download_packages (fun _ => "aa") (fun _ => [0]) []
        "http://r/" "m" false (fun _ => true) []
        [⟨"filelists", some "repodata/filelists.xml.gz"⟩] ["p/a.rpm"] =
        ([], [], some SyncError.attributeError) ∧
      SyncError.attributeError ≠ SyncError.malformedMetadataError := by
  constructor
  · rfl
  · decide

/-- Claim C2 (amended): for every manifest without a `primary` data
descriptor the run aborts before any package download — but with the
null-attribute crash (`AttributeError`) of `find(...).get('href')` at
src/main.py:136, not with a structured `MalformedMetadataError`, which the
code never defines. -/
theorem missing_primary_aborts_before_package_downloads
    (hash : Content → String) (remote : String → Content)
    (cks : List (String × String)) (base_url local_dir : String)
    (force : Bool) (fetchOk : String → Bool) (fs : Fs)
    (rd : List DataEntry) (pkgs : List String)
    (hnone : ∀ d ∈ rd, d.dtype ≠ "primary") :
    enumerate_and_download_packages hash remote cks base_url local_dir force
        fetchOk fs rd pkgs = (fs, [], some SyncError.attributeError) ∧
      SyncError.attributeError ≠ SyncError.malformedMetadataError := by
  have hfil : rd.filter (fun d => d.dtype == "primary") = [] := by
    rw [List.filter_eq_nil_iff]
    intro d hd
    simp [hnone d hd]
  have hfind : find_primary_location rd = none := by
    unfold find_primary_location
    rw [hfil]
    rfl
  constructor
  · unfold enumerate_and_download_packages get_primary_href
    rw [hfind]
  · decide

/-- Witness for `missing_primary_aborts_before_package_downloads` on a
concrete manifest with no descriptors at all. -/
theorem missing_primary_aborts_witness :
    enumerate_and_download_packages (fun _ => "aa") (fun _ => [0]) []
        "http://r/" "m" false (fun _ => true) [] []
        ["p/a.rpm", "p/b.rpm"] = ([], [], some SyncError.attributeError) ∧
      SyncError.attributeError ≠ SyncError.malformedMetadataError :=
  missing_primary_aborts_before_package_downloads (fun _ => "aa")
    (fun _ => [0]) [] "http://r/" "m" false (fun _ => true) [] []
    ["p/a.rpm", "p/b.rpm"] (by decide)

/-- Claim C3 counterexample: in a two-record partition whose first record's
fetch raises, the worker does not skip the record and proceed — the source
loop has no handler, so the second record is never attempted even though
its own fetch would succeed (second conjunct), and the group reports the
exception. -/
theorem fetch_failure_not_skipped_cex :
    download_package_group (fun _ => "aa") (fun _ => [0]) [] "http://r/" "m"
        true (fun u => !(u == "http://r/p/a.rpm")) [] ["p/a.rpm", "p/b.rpm"] =
        ([], [], some "p/a.rpm") ∧
      (fun u => !(u == "http://r/p/a.rpm"))
          (os_path_join "http://r/" "p/b.rpm") = true := by
  constructor
  · rfl
  · decide

theorem download_group_all_ok (hash : Content → String)
    (remote : String → Content) (cks : List (String × String))
    (base_url local_dir : String) (fetchOk : String → Bool) :
    ∀ (g : List String) (fs : Fs),
      (∀ l ∈ g, fetchOk (os_path_join base_url l) = true) →
      ∃ fs', download_package_group hash remote cks base_url local_dir true
        fetchOk fs g = (fs', g, none) := by
  intro g
  induction g with
  | nil => intro fs _; exact ⟨fs, rfl⟩
  | cons loc rest ih =>
    intro fs hall
    obtain ⟨fs', h⟩ := ih
      (fs_write fs
        (get_local_path base_url local_dir (os_path_join base_url loc))
        (remote (os_path_join base_url loc)))
      (fun l hl => hall l (by simp [hl]))
    refine ⟨fs', ?_⟩
    simp only [download_package_group, Bool.true_or, if_true,
      hall loc (by simp), h]

theorem download_group_aborts_at_failure (hash : Content → String)
    (remote : String → Content) (cks : List (String × String))
    (base_url local_dir : String) (fetchOk : String → Bool) (bad : String)
    (post : List String) (hbad : fetchOk (os_path_join base_url bad) = false) :
    ∀ (pre : List String) (fs : Fs),
      (∀ l ∈ pre, fetchOk (os_path_join base_url l) = true) →
      ∃ fs', download_package_group hash remote cks base_url local_dir true
        fetchOk fs (pre ++ bad :: post) = (fs', pre, some bad) := by
  intro pre
  induction pre with
  | nil =>
    intro fs _
    refine ⟨fs, ?_⟩
    simp only [List.nil_append, download_package_group, Bool.true_or, if_true,
      hbad, Bool.false_eq_true, if_false]
  | cons loc rest ih =>
    intro fs hall
    obtain ⟨fs', h⟩ := ih
      (fs_write fs
        (get_local_path base_url local_dir (os_path_join base_url loc))
        (remote (os_path_join base_url loc)))
      (fun l hl => hall l (by simp [hl]))
    refine ⟨fs', ?_⟩
    simp only [List.cons_append, download_package_group, Bool.true_or, if_true,
      hall loc (by simp), List.append_eq, h]

/-- Claim C3 (amended): an individual fetch failure is not skipped — it
aborts the remainder of its own partition (no record after the first
failing one is attempted), while every other submitted partition still
runs in its own worker and downloads all of its fetchable records; the
failure resurfaces once per run when the futures are collected. -/
theorem fetch_failure_aborts_rest_of_partition
    (hash : Content → String) (remote : String → Content)
    (cks : List (String × String)) (base_url local_dir : String)
    (fetchOk : String → Bool) (fs : Fs) (k1 k2 bad : String)
    (pre post other : List String)
    (hpre : ∀ l ∈ pre, fetchOk (os_path_join base_url l) = true)
    (hbad : fetchOk (os_path_join base_url bad) = false)
    (hother : ∀ l ∈ other, fetchOk (os_path_join base_url l) = true) :
    ∃ fs', run_groups hash remote cks base_url local_dir true fetchOk fs
        [(k1, pre ++ bad :: post), (k2, other)] =
        (fs', pre ++ other, some bad) := by
  obtain ⟨fs1, h1⟩ := download_group_aborts_at_failure hash remote cks base_url
    local_dir fetchOk bad post hbad pre fs hpre
  obtain ⟨fs2, h2⟩ := download_group_all_ok hash remote cks base_url local_dir
    fetchOk other fs1 hother
  refine ⟨fs2, ?_⟩
  simp [run_groups, h1, h2, Option.orElse]

/-- Witness for `fetch_failure_aborts_rest_of_partition` at a concrete
two-partition plan: the failing partition loses its tail record, the other
partition is fully mirrored. -/
theorem fetch_failure_aborts_rest_of_partition_witness :
    ∃ fs', run_groups (fun _ => "aa") (fun _ => [0]) [] "http://r/" "m" true
        (fun u => !(u == "http://r/p/b.rpm")) [] 
        [("p", ["p/a.rpm"] ++ "p/b.rpm" :: ["p/c.rpm"]), ("q", ["q/d.rpm"])] =
        (fs', ["p/a.rpm"] ++ ["q/d.rpm"], some "p/b.rpm") :=
  fetch_failure_aborts_rest_of_partition (fun _ => "aa") (fun _ => [0]) []
    "http://r/" "m" (fun u => !(u == "http://r/p/b.rpm")) [] "p" "q" "p/b.rpm"
    ["p/a.rpm"] ["p/c.rpm"] ["q/d.rpm"] (by decide) (by decide) (by decide)

theorem fs_lookup_write (fs : Fs) (p q : String) (c : Content) :
    fs_lookup (fs_write fs p c) q = if p = q then some c else fs_lookup fs q :=
  rfl

/-- The local filesystem after one complete, non-forced run over `records`
in which every fetch succeeds: `download_package_group` with `fetchOk`
constantly true, restricted to its filesystem component.  This is the state
a first successful sync pass leaves behind. -/
def run_fs (hash : Content → String) (remote : String → Content)
    (cks : List (String × String)) (base_url local_dir : String)
    (fs : Fs) (records : List String) : Fs :=
  (download_package_group hash remote cks base_url local_dir false
    (fun _ => true) fs records).1

theorem run_fs_cons_needs (hash : Content → String) (remote : String → Content)
    (cks : List (String × String)) (base_url local_dir : String)
    (fs : Fs) (t : String) (ts : List String)
    (hneed : file_needs_update hash fs cks base_url local_dir
      (os_path_join base_url t) t = true) :
    run_fs hash remote cks base_url local_dir fs (t :: ts) =
      run_fs hash remote cks base_url local_dir
        (fs_write fs (get_local_path base_url local_dir (os_path_join base_url t))
          (remote (os_path_join base_url t))) ts := by
  simp [run_fs, download_package_group, hneed]

theorem run_fs_cons_skip (hash : Content → String) (remote : String → Content)
    (cks : List (String × String)) (base_url local_dir : String)
    (fs : Fs) (t : String) (ts : List String)
    (hskip : file_needs_update hash fs cks base_url local_dir
      (os_path_join base_url t) t = false) :
    run_fs hash remote cks base_url local_dir fs (t :: ts) =
      run_fs hash remote cks base_url local_dir fs ts := by
  simp [run_fs, download_package_group, hskip]

theorem needs_update_false_after_write (hash : Content → String)
    (remote : String → Content) (cks : List (String × String))
    (base_url local_dir : String) (fs : Fs) (loc : String)
    (hcons : ∀ rc ∈ dict_get cks loc, rc ≠ "" →
      hash (remote (os_path_join base_url loc)) = rc) :
    file_needs_update hash
      (fs_write fs (get_local_path base_url local_dir (os_path_join base_url loc))
        (remote (os_path_join base_url loc)))
      cks base_url local_dir (os_path_join base_url loc) loc = false := by
  unfold file_needs_update
  rw [fs_lookup_write, if_pos rfl]
  cases hck : dict_get cks loc with
  | none => rfl
  | some rc =>
    by_cases hrc : rc = ""
    · subst hrc
      simp
    · have heq := hcons rc (Option.mem_def.mpr hck) hrc
      simp [heq]

theorem needs_update_false_preserved_by_write (hash : Content → String)
    (remote : String → Content) (cks : List (String × String))
    (base_url local_dir : String) (fs : Fs) (loc₂ loc : String)
    (hcons : ∀ rc ∈ dict_get cks loc, rc ≠ "" →
      hash (remote (os_path_join base_url loc)) = rc)
    (hinj : get_local_path base_url local_dir (os_path_join base_url loc₂) =
        get_local_path base_url local_dir (os_path_join base_url loc) →
      remote (os_path_join base_url loc₂) = remote (os_path_join base_url loc))
    (hP : file_needs_update hash fs cks base_url local_dir
      (os_path_join base_url loc) loc = false) :
    file_needs_update hash
      (fs_write fs (get_local_path base_url local_dir (os_path_join base_url loc₂))
        (remote (os_path_join base_url loc₂)))
      cks base_url local_dir (os_path_join base_url loc) loc = false := by
  by_cases hpath : get_local_path base_url local_dir (os_path_join base_url loc₂) =
      get_local_path base_url local_dir (os_path_join base_url loc)
  · rw [hinj hpath, hpath]
    exact needs_update_false_after_write hash remote cks base_url local_dir fs
      loc hcons
  · unfold file_needs_update at hP ⊢
    rw [fs_lookup_write, if_neg hpath]
    exact hP

theorem run_establishes_up_to_date (hash : Content → String)
    (remote : String → Content) (cks : List (String × String))
    (base_url local_dir : String) (records : List String)
    (hcons : ∀ l ∈ records, ∀ rc ∈ dict_get cks l, rc ≠ "" →
      hash (remote (os_path_join base_url l)) = rc)
    (hinj : ∀ l₁ ∈ records, ∀ l₂ ∈ records,
      get_local_path base_url local_dir (os_path_join base_url l₁) =
        get_local_path base_url local_dir (os_path_join base_url l₂) →
      remote (os_path_join base_url l₁) = remote (os_path_join base_url l₂)) :
    ∀ (todo : List String), (∀ l ∈ todo, l ∈ records) → ∀ (fs : Fs),
      (∀ loc ∈ records,
        file_needs_update hash fs cks base_url local_dir
          (os_path_join base_url loc) loc = false →
        file_needs_update hash
          (run_fs hash remote cks base_url local_dir fs todo)
          cks base_url local_dir (os_path_join base_url loc) loc = false) ∧
      (∀ loc ∈ todo,
        file_needs_update hash
          (run_fs hash remote cks base_url local_dir fs todo)
          cks base_url local_dir (os_path_join base_url loc) loc = false) := by
  intro todo
  induction todo with
  | nil =>
    intro _ fs
    exact ⟨fun loc _ h => h, fun loc h => absurd h (by simp)⟩
  | cons t ts ih =>
    intro hsub fs
    have ht : t ∈ records := hsub t (by simp)
    have hsub' : ∀ l ∈ ts, l ∈ records := fun l hl => hsub l (by simp [hl])
    by_cases hneed : file_needs_update hash fs cks base_url local_dir
        (os_path_join base_url t) t = true
    · rw [run_fs_cons_needs hash remote cks base_url local_dir fs t ts hneed]
      have hP1 : file_needs_update hash
          (fs_write fs
            (get_local_path base_url local_dir (os_path_join base_url t))
            (remote (os_path_join base_url t)))
          cks base_url local_dir (os_path_join base_url t) t = false :=
        needs_update_false_after_write hash remote cks base_url local_dir fs t
          (hcons t ht)
      have hpres : ∀ loc ∈ records,
          file_needs_update hash fs cks base_url local_dir
            (os_path_join base_url loc) loc = false →
          file_needs_update hash
            (fs_write fs
              (get_local_path base_url local_dir (os_path_join base_url t))
              (remote (os_path_join base_url t)))
            cks base_url local_dir (os_path_join base_url loc) loc = false :=
        fun loc hloc hP =>
          needs_update_false_preserved_by_write hash remote cks base_url
            local_dir fs t loc (hcons loc hloc) (hinj t ht loc hloc) hP
      refine ⟨fun loc hloc hP => ?_, fun loc hloc => ?_⟩
      · exact (ih hsub' _).1 loc hloc (hpres loc hloc hP)
      · rcases List.mem_cons.mp hloc with h | h
        · subst h
          exact (ih hsub' _).1 loc ht hP1
        · exact (ih hsub' _).2 loc h
    · have hskip : file_needs_update hash fs cks base_url local_dir
          (os_path_join base_url t) t = false := by
        simpa using hneed
      rw [run_fs_cons_skip hash remote cks base_url local_dir fs t ts hskip]
      refine ⟨fun loc hloc hP => (ih hsub' fs).1 loc hloc hP, fun loc hloc => ?_⟩
      rcases List.mem_cons.mp hloc with h | h
      · subst h
        exact (ih hsub' fs).1 loc ht hskip
      · exact (ih hsub' fs).2 loc h

theorem no_downloads_when_up_to_date (hash : Content → String)
    (remote : String → Content) (cks : List (String × String))
    (base_url local_dir : String) :
    ∀ (todo : List String) (fs : Fs),
      (∀ loc ∈ todo, file_needs_update hash fs cks base_url local_dir
        (os_path_join base_url loc) loc = false) →
      download_package_group hash remote cks base_url local_dir false
        (fun _ => true) fs todo = (fs, [], none) := by
  intro todo
  induction todo with
  | nil => intro fs _; rfl
  | cons t ts ih =>
    intro fs hall
    have hP := hall t (by simp)
    rw [download_package_group, hP]
    simp only [Bool.or_self, Bool.false_eq_true, if_false]
    exact ih fs (fun l hl => hall l (by simp [hl]))

/-- Claim C4: after one complete, successful, non-forced sync pass over an
unchanged and internally consistent remote (each truthy recorded checksum
is the hash of the bytes served at its record's URL, and records whose
URLs map to the same local path serve the same bytes), a second pass
downloads nothing: every record's `file_needs_update` check returns
`false` and `download_package_group` leaves the filesystem untouched with
an empty download list. -/
theorem second_run_downloads_nothing (hash : Content → String)
    (remote : String → Content) (cks : List (String × String))
    (base_url local_dir : String) (fs : Fs) (records : List String)
    (hcons : ∀ l ∈ records, ∀ rc ∈ dict_get cks l, rc ≠ "" →
      hash (remote (os_path_join base_url l)) = rc)
    (hinj : ∀ l₁ ∈ records, ∀ l₂ ∈ records,
      get_local_path base_url local_dir (os_path_join base_url l₁) =
        get_local_path base_url local_dir (os_path_join base_url l₂) →
      remote (os_path_join base_url l₁) = remote (os_path_join base_url l₂)) :
    (∀ loc ∈ records,
      file_needs_update hash
        (run_fs hash remote cks base_url local_dir fs records)
        cks base_url local_dir (os_path_join base_url loc) loc = false) ∧
    download_package_group hash remote cks base_url local_dir false
        (fun _ => true)
        (run_fs hash remote cks base_url local_dir fs records) records =
      (run_fs hash remote cks base_url local_dir fs records, [], none) := by
  have hup := (run_establishes_up_to_date hash remote cks base_url local_dir
    records hcons hinj records (fun l h => h) fs).2
  exact ⟨hup, no_downloads_when_up_to_date hash remote cks base_url local_dir
    records _ hup⟩

/-- Witness for `second_run_downloads_nothing` on a concrete two-record
repository, one record with a consistent checksum and one without. -/
theorem second_run_downloads_nothing_witness :
    (∀ loc ∈ ["p/a.rpm", "q/b.rpm"],
      file_needs_update (fun c => if c = [1] then "H1" else "H0")
        (run_fs (fun c => if c = [1] then "H1" else "H0")
          (fun u => if u = "http://r/p/a.rpm" then [1] else [2])
          [("p/a.rpm", "H1")] "http://r/" "m" [] ["p/a.rpm", "q/b.rpm"])
        [("p/a.rpm", "H1")] "http://r/" "m" (os_path_join "http://r/" loc)
        loc = false) ∧
    download_package_group (fun c => if c = [1] then "H1" else "H0")
        (fun u => if u = "http://r/p/a.rpm" then [1] else [2])
        [("p/a.rpm", "H1")] "http://r/" "m" false (fun _ => true)
        (run_fs (fun c => if c = [1] then "H1" else "H0")
          (fun u => if u = "http://r/p/a.rpm" then [1] else [2])
          [("p/a.rpm", "H1")] "http://r/" "m" [] ["p/a.rpm", "q/b.rpm"])
        ["p/a.rpm", "q/b.rpm"] =
      (run_fs (fun c => if c = [1] then "H1" else "H0")
        (fun u => if u = "http://r/p/a.rpm" then [1] else [2])
        [("p/a.rpm", "H1")] "http://r/" "m" [] ["p/a.rpm", "q/b.rpm"], [],
        none) :=
  second_run_downloads_nothing (fun c => if c = [1] then "H1" else "H0")
    (fun u => if u = "http://r/p/a.rpm" then [1] else [2])
    [("p/a.rpm", "H1")] "http://r/" "m" [] ["p/a.rpm", "q/b.rpm"]
    (by decide) (by decide)
